import Mathlib

/-!
Verification of the opensearch-hlg client SDK.

The repository is a JavaScript client for a hosted search service.  It has two
components: a transport client (`CloudClient`, file `src/unnamed/part_000`)
that signs and issues HTTP requests, and a query builder (`CloudSearch`,
file `src/lib/cloudserach.js`) that accumulates search parameters and
flattens them into a wire-format parameter map.

JavaScript objects used as string-keyed maps are modelled as
insertion-ordered association lists; JS primitive values appearing in
parameter maps are modelled by `JSVal`; fallible operations (property access
on `undefined`, calling a missing method) are modelled with `Except`.
External npm helpers (`small2`, `utility.hmac`) are not part of the
repository; they are modelled from the specification where their behaviour
matters, and the HMAC hash itself is taken as an explicit function argument.
-/

namespace Opensearch

/-- JavaScript primitive values that occur in the parameter maps of this
client: strings and (integer) numbers. -/
inductive JSVal where
  | str : String → JSVal
  | num : Int → JSVal
  deriving DecidableEq, Repr

/-- JS truthiness (`!!v`) for the modelled values: the empty string and the
number 0 are falsy, everything else is truthy. -/
def jsTruthy : JSVal → Bool
  | .str s => s ≠ ""
  | .num n => n ≠ 0

/-- Rendering of a modelled JS value by string coercion. -/
def valToString : JSVal → String
  | .str s => s
  | .num n => toString n

/-- A JS object used as a map, modelled as an insertion-ordered association
list with unique keys. -/
abbrev Params := List (String × JSVal)

/-- Assignment `obj[k] = v` on a JS object: overwrite the entry in place if the key is
present, otherwise append it at the end. -/
def setKV {α : Type} : List (String × α) → String → α → List (String × α)
  | [], k, v => [(k, v)]
  | (k0, v0) :: rest, k, v =>
    if k0 = k then (k0, v) :: rest else (k0, v0) :: setKV rest k v

/-- Read `obj[k]` on a JS object: first (and, with unique keys, only)
binding of the key. -/
def getKV {α : Type} : List (String × α) → String → Option α
  | [], _ => none
  | (k0, v0) :: rest, k => if k0 = k then some v0 else getKV rest k

/-- Deletion `delete obj[k]` on a JS object: drop every binding of the key. -/
def delKV {α : Type} (l : List (String × α)) (k : String) : List (String × α) :=
  l.filter fun kv => kv.1 ≠ k

/-- Lexicographic comparison of character lists by code point, the order the
JS default `Array.prototype.sort` comparator induces on the
(ASCII) parameter keys of this client. -/
def charListLe : List Char → List Char → Bool
  | [], _ => true
  | _ :: _, [] => false
  | a :: as, b :: bs =>
    if a.toNat < b.toNat then true
    else if b.toNat < a.toNat then false
    else charListLe as bs

/-- String comparison used by the key sort in `_paramsFilter`. -/
def strLe (a b : String) : Bool := charListLe a.data b.data

/-- Insert a string into a `strLe`-sorted list, keeping it sorted. -/
def insertStr (x : String) : List String → List String
  | [] => [x]
  | y :: ys => if strLe x y then x :: y :: ys else y :: insertStr x ys

/-- Insertion sort of a key list by `strLe`; models `Array.sort()` on the
key array (keys are unique, so stability is irrelevant). -/
def sortStrs : List String → List String
  | [] => []
  | x :: xs => insertStr x (sortStrs xs)

/-- JS `s.replace(/c/g, r)` for a single-character pattern: replace every
occurrence of the character `c` by the string `r`. -/
def replaceChar (s : String) (c : Char) (r : String) : String :=
  s.data.foldl (fun acc ch => if ch = c then acc ++ r else acc.push ch) ""

/-- JS `s.replace(/c$/g, "")` for a single-character pattern: drop a single
trailing occurrence of the character `c`. -/
def stripTrailingChar (s : String) (c : Char) : String :=
  if s.data.getLast? = some c then String.mk s.data.dropLast else s

/-- JS `Array.prototype.join(sep)`. -/
def joinSep (sep : String) : List String → String
  | [] => ""
  | [x] => x
  | x :: y :: ys => x ++ sep ++ joinSep sep (y :: ys)

/-- Concatenation of a list of strings (helper for serialization proofs). -/
def concatAll : List String → String
  | [] => ""
  | x :: xs => x ++ concatAll xs

/-- The apostrophe character (code point 39). -/
def apos : Char := Char.ofNat 39

/-- Uppercase hexadecimal digit of a value below 16. -/
def hexDigit (n : Nat) : Char :=
  if n < 10 then Char.ofNat (48 + n) else Char.ofNat (55 + n)

/-- UTF-8 bytes of a character, as used by `encodeURIComponent`. -/
def utf8Bytes (c : Char) : List Nat :=
  let n := c.toNat
  if n < 128 then [n]
  else if n < 2048 then [192 + n / 64, 128 + n % 64]
  else if n < 65536 then [224 + n / 4096, 128 + (n / 64) % 64, 128 + n % 64]
  else [240 + n / 262144, 128 + (n / 4096) % 64, 128 + (n / 64) % 64, 128 + n % 64]

/-- Percent-escape of one byte: `%XX` with uppercase hex. -/
def pctByte (b : Nat) : String :=
  String.mk ['%', hexDigit (b / 16), hexDigit (b % 16)]

/-- Characters `encodeURIComponent` leaves unescaped: alphanumerics and
`- _ . ! ~ * ' ( )`. -/
def uriUnreserved (c : Char) : Bool :=
  c.isAlphanum || c = '-' || c = '_' || c = '.' || c = '!' || c = '~' ||
    c = '*' || c = apos || c = '(' || c = ')'

/-- Modelled from the spec: the standard percent-encoding
(`encodeURIComponent`, per ECMA-262) that the external `small2` helper
`s2.parseString(str, true)` applies to a plain string. -/
def encodeURIComponent (s : String) : String :=
  s.data.foldl
    (fun acc c =>
      if uriUnreserved c then acc.push c
      else acc ++ concatAll ((utf8Bytes c).map pctByte))
    ""

/-! ## Transport client (`CloudClient`, src/unnamed/part_000) -/

/-- Endpoint configuration of the transport client, mirroring the
`default_opts` object of `src/unnamed/part_000` field by field.  `timeout`
and `connect_timeout` are numbers, `gzip` and `debug` are booleans, the
rest are strings. -/
structure ClientOpts where
  version : String
  sdkVersion : String
  method : String
  timeout : Int
  connect_timeout : Int
  host : String
  protocol : String
  gzip : Bool
  debug : Bool
  key_type : String
  signatureMethod : String
  signatureVersion : String
  accessKeyId : String
  secret : String
  baseURI : String
  deriving DecidableEq, Repr

/-- The `default_opts` literal of the transport client. -/
def default_opts : ClientOpts :=
  { version := "v2"
    sdkVersion := "v2.0.6"
    method := "GET"
    timeout := 30
    connect_timeout := 30
    host := "http://opensearch.aliyuncs.com"
    protocol := "http"
    gzip := false
    debug := false
    key_type := "aliyun"
    signatureMethod := "HMAC-SHA1"
    signatureVersion := "1.0"
    accessKeyId := ""
    secret := ""
    baseURI := "" }

/-- The `CloudClient` constructor: merge the caller options over the
defaults (the argument is the already-merged record), strip one trailing
slash from the host (`host.replace(/\x2f$/g, '')` with a `$`-anchored
pattern matches at most once), and copy the host into `baseURI`. -/
def CloudClient (opts : ClientOpts) : ClientOpts :=
  let host := stripTrailingChar opts.host '/'
  { opts with host := host, baseURI := host }

/-- Function `_paramsFilter` of the transport client: take the keys in insertion
order, sort them (`Object.keys(parameters).sort()`), and rebuild the map in
sorted key order keeping only keys other than `Signature` whose value is
truthy or is exactly the number 0
(`k !== 'Signature' && (!!parameters[k] || parameters[k] === 0)`). -/
def _paramsFilter (parameters : Params) : Params :=
  (sortStrs (parameters.map Prod.fst)).filterMap fun k =>
    (getKV parameters k).bind fun v =>
      if k ≠ "Signature" ∧ (jsTruthy v ∨ v = .num 0) then some (k, v) else none

/-- Modelled from the spec: the external `small2` helper
`s2.parseString(obj, true)` percent-encodes the map into a query string
using the standard percent-encoding rules — `k=v` pairs joined by `&`,
keys and values passed through `encodeURIComponent`. -/
def parseStringEncode (ps : Params) : String :=
  joinSep "&" (ps.map fun kv =>
    encodeURIComponent kv.1 ++ "=" ++ encodeURIComponent (valToString kv.2))

/-- The five provider-specific replacements `_percentEncode` applies after
the standard encoding: `*` `!` `'` `(` `)` become `%2A %21 %27 %28 %29`. -/
def aliyunFixup (s : String) : String :=
  let res := replaceChar s '*' "%2A"
  let res := replaceChar res '!' "%21"
  let res := replaceChar res apos "%27"
  let res := replaceChar res '(' "%28"
  replaceChar res ')' "%29"

/-- Function `_percentEncode` applied to a plain string argument (the second call
site inside `_signAliyun`, and `_httpRequest`): standard percent-encoding
followed by the five fixups. -/
def _percentEncode (code : String) : String :=
  aliyunFixup (encodeURIComponent code)

/-- Function `_percentEncode` applied to a parameter-map argument (the first call
site inside `_signAliyun`): the map is serialized by
`s2.parseString(code, true)` and then fixed up. -/
def percentEncodeParams (code : Params) : String :=
  aliyunFixup (parseStringEncode code)

/-- Function `_signAliyun` of the transport client.  The HMAC-SHA1 hex digest
(`utility.hmac('sha1', key, message)`, an external npm library) is taken as
the function argument `hmac`.  A clone of the params drops `items` when
`sign_mode === 1`, is filtered and sorted, serialized and encoded, and the
base string `METHOD&%2F&<encoded query>` is signed with key `secret&`. -/
def _signAliyun (hmac : String → String → String) (params : Params)
    (opts : ClientOpts) : String :=
  let ps :=
    if getKV params "sign_mode" = some (.num 1) then delKV params "items" else params
  let ps := _paramsFilter ps
  let query := percentEncodeParams ps
  let baseString := opts.method.toUpper ++ "&%2F&" ++ _percentEncode query
  hmac (opts.secret ++ "&") baseString

/-- Method `CloudClient.prototype.callRequest`, up to the point where the HTTP
request is issued (the network call itself is IO and outside the model).
The nonce and the timestamp are generated from the clock and a random
source; they enter as arguments.  Note the source line
`opts.method = method || opts.method;` which writes back into the stored
options object.  Returns the updated stored options together with the final
outbound parameter map. -/
def callRequest (hmac : String → String → String) (client : ClientOpts)
    (path : String) (params : Params) (method : String)
    (nonce timestamp : String) : ClientOpts × Params × String :=
  let url := client.baseURI ++ path
  let opts := { client with method := if method = "" then client.method else method }
  let ps := setKV params "Version" (.str opts.version)
  let ps := setKV ps "AccessKeyId" (.str opts.accessKeyId)
  let ps := setKV ps "SignatureMethod" (.str opts.signatureMethod)
  let ps := setKV ps "SignatureVersion" (.str opts.signatureVersion)
  let ps := setKV ps "SignatureNonce" (.str nonce)
  let ps := setKV ps "Timestamp" (.str timestamp)
  let ps := setKV ps "Signature" (.str (_signAliyun hmac ps opts))
  (opts, ps, url)

/-! ## Query builder (`CloudSearch`, src/lib/cloudserach.js) -/

/-- Builder state, mirroring the `default_opts` object of
`src/lib/cloudserach.js` field by field.  Object-valued fields are
insertion-ordered association lists; `scrollId` and `scroll` default to
`null` and are modelled as options.  The unused string field
`default_opts.clauseConfig` (marked TODO in the source) is named
`clauseConfigOpt` here to leave the name `clauseConfig` for the method of
the same name. -/
structure SearchOpts where
  indexes : List String
  summary : List (String × List (String × String))
  clauseConfigOpt : String
  format : String
  start : Int
  hits : Int
  sort : List (String × String)
  filters : String
  aggregate : List (String × List (List (String × String)))
  distinct : List (String × List (String × String))
  fetches : List String
  rerankSize : Int
  query : String
  formulaName : String
  firstFormulaName : String
  kvpair : String
  QPName : List String
  functions : List (String × List String)
  customParams : List (String × String)
  scrollId : Option String
  searchType : String
  scroll : Option String
  path : String
  deriving DecidableEq, Repr

/-- The `default_opts` literal of the query builder. -/
def search_default_opts : SearchOpts :=
  { indexes := []
    summary := []
    clauseConfigOpt := ""
    format := "json"
    start := 0
    hits := 20
    sort := []
    filters := ""
    aggregate := []
    distinct := []
    fetches := []
    rerankSize := 200
    query := ""
    formulaName := ""
    firstFormulaName := ""
    kvpair := ""
    QPName := []
    functions := []
    customParams := []
    scrollId := none
    searchType := ""
    scroll := none
    path := "/search" }

/-- A JS argument that may be a missing argument (`undefined`), a string,
or an array of strings — the shapes the `add` mutators accept. -/
inductive JSArg where
  | undef : JSArg
  | s : String → JSArg
  | arr : List String → JSArg
  deriving DecidableEq, Repr

/-- JS truthiness of a `JSArg`: `undefined` and the empty string are
falsy; every array (even the empty one) is truthy. -/
def jsArgTruthy : JSArg → Bool
  | .undef => false
  | .s v => v ≠ ""
  | .arr _ => true

/-- Method `CloudSearch.prototype.addIndex`.  For a string argument (a string has
no `map` method, so the `indexName.map` guard is falsy) the name is pushed
unconditionally.  For a non-empty array argument the callback evaluates
`self.indexes.indexOf(e)` — but the instance has no `indexes` property
(the list lives in `self._opts.indexes`), so reading `indexOf` of
`undefined` throws a `TypeError`.  A missing argument throws on
`indexName.map`.  An empty array runs the callback zero times and stores
the list back unchanged. -/
def addIndex (st : SearchOpts) : JSArg → Except String SearchOpts
  | .s v => .ok { st with indexes := st.indexes ++ [v] }
  | .arr [] => .ok st
  | .arr (_ :: _) =>
    .error "TypeError: Cannot read property indexOf of undefined"
  | .undef => .error "TypeError: Cannot read property map of undefined"

/-- Method `CloudSearch.prototype.addFetchFields`.  The string branch evaluates
`this._opts.indexOf(field)` and the array branch evaluates
`this._opts.indexOf(e)` with an unbound `this` — `_opts` is a plain object
with no `indexOf` method, so every string argument and every non-empty
array argument throws a `TypeError`; a missing argument throws on
`field.map`.  Only an empty array completes, leaving the state unchanged. -/
def addFetchFields (st : SearchOpts) : JSArg → Except String SearchOpts
  | .s _ => .error "TypeError: this._opts.indexOf is not a function"
  | .arr [] => .ok st
  | .arr (_ :: _) => .error "TypeError: this._opts.indexOf is not a function"
  | .undef => .error "TypeError: Cannot read property map of undefined"

/-- Method `CloudSearch.prototype.addSort`: returns `false` (modelled as leaving
the state unchanged) for a falsy field, otherwise stores
`sortChar || '-'` under the field. -/
def addSort (st : SearchOpts) (field sortChar : String) : SearchOpts :=
  if field = "" then st
  else { st with sort := setKV st.sort field (if sortChar = "" then "-" else sortChar) }

/-- Fold a list of `(field, direction)` pairs through `addSort`. -/
def addSorts (st : SearchOpts) (l : List (String × String)) : SearchOpts :=
  l.foldl (fun s p => addSort s p.1 p.2) st

/-- Method `CloudSearch.prototype.getSort` with no argument. -/
def getSort (st : SearchOpts) : List (String × String) := st.sort

/-- Method `CloudSearch.prototype.getSortString`: concatenate `dir ++ field ++ ";"`
over the sort map in insertion order, then strip the trailing `;`. -/
def getSortString (st : SearchOpts) : String :=
  stripTrailingChar
    ((getSort st).foldl (fun acc kv => acc ++ kv.2 ++ kv.1 ++ ";") "") ';'

/-- Method `CloudSearch.prototype.setHits`: stores `hits || 20`, so a falsy
(zero) argument stores the default 20. -/
def setHits (st : SearchOpts) (hits : Int) : SearchOpts :=
  { st with hits := if hits = 0 then 20 else hits }

/-- Method `CloudSearch.prototype.getHits`. -/
def getHits (st : SearchOpts) : Int := st.hits

/-- Method `CloudSearch.prototype.setScroll`. -/
def setScroll (st : SearchOpts) (scroll : Option String) : SearchOpts :=
  { st with scroll := scroll }

/-- Method `CloudSearch.prototype.setScrollId`. -/
def setScrollId (st : SearchOpts) (scrollId : Option String) : SearchOpts :=
  { st with scrollId := scrollId }

/-- Method `CloudSearch.prototype.setFormulaName`. -/
def setFormulaName (st : SearchOpts) (formulaName : String) : SearchOpts :=
  { st with formulaName := formulaName }

/-- Method `CloudSearch.prototype.setQueryString`. -/
def setQueryString (st : SearchOpts) (query : String) : SearchOpts :=
  { st with query := query }

/-- Method `CloudSearch.prototype.addCustomParam`. -/
def addCustomParam (st : SearchOpts) (paramKey paramValue : String) : SearchOpts :=
  { st with customParams := setKV st.customParams paramKey paramValue }

/-- Method `CloudSearch.prototype.addQPName`.  The source reads the stored list,
calls `qp.concat(QPName)` — whose result is a fresh array that is
discarded — and stores the original list back, so the state is returned
unchanged. -/
def addQPName (st : SearchOpts) (_QPName : JSArg) : SearchOpts :=
  { st with QPName := st.QPName }

/-- Method `CloudSearch.prototype.addDisabledFunction`.  Reads the stored list
for the function name (or `[]`), returns early on a falsy disable value,
calls `functions.concat(disableValue)` — result discarded — and stores the
unchanged list back under the name. -/
def addDisabledFunction (st : SearchOpts) (functionName : String)
    (disableValue : JSArg) : SearchOpts :=
  let functions := (getKV st.functions functionName).getD []
  if jsArgTruthy disableValue then
    { st with functions := setKV st.functions functionName functions }
  else st

/-- Method `CloudSearch.prototype.clauseConfig`: always
`format:<fmt>,start:<n>,hit:<n>`, plus `rerank_size:<n>` when the rerank
size is truthy, comma-joined. -/
def clauseConfig (st : SearchOpts) : String :=
  let config := ["format:" ++ st.format, "start:" ++ toString st.start,
    "hit:" ++ toString st.hits]
  let config :=
    if st.rerankSize = 0 then config
    else config ++ ["rerank_size:" ++ toString st.rerankSize]
  joinSep "," config

/-- The literal `''` (two apostrophes) used as the default query clause. -/
def emptyQuotes : String := String.mk [apos, apos]

/-- Modelled from the spec: the external `small2` helper
`s2.parseString(obj)` with default separators renders a string-valued map
as `key:value` pairs joined by `&` (the spec's end-to-end example shows the
produced query value `query:...&&config:format:json,...` after each `&` is
doubled). -/
def parseStringDefault (ps : List (String × String)) : String :=
  joinSep "&" (ps.map fun kv => kv.1 ++ ":" ++ kv.2)

/-- The clause map (`haquery`) built by `callQuery` in scroll mode:
`query` (defaulting to the literal `''`), `config`, and — only when
non-empty (`s2.goneEmpty`) — `filter` and `kvpairs`.  The search-only
clauses `sort`, `distinct`, `aggregate` are guarded by
`type === 'search'` and never added. -/
def scrollHaquery (st : SearchOpts) : List (String × String) :=
  [("query", if st.query = "" then emptyQuotes else st.query),
   ("config", clauseConfig st)] ++
  (if st.filters = "" then [] else [("filter", st.filters)]) ++
  (if st.kvpair = "" then [] else [("kvpairs", st.kvpair)])

/-- The fixed entries `callQuery` always emits: the serialized clause map
with every literal `&` doubled, the joined index names and the format. -/
def scrollBaseParams (st : SearchOpts) : List (String × String) :=
  [("query", replaceChar (parseStringDefault (scrollHaquery st)) '&' "&&"),
   ("index_name", joinSep ";" st.indexes),
   ("Format", st.format)]

/-- The base map plus the custom params (merged verbatim by the
`for(let k in result)` loop) plus `fetch_fields` when the fetch list is
non-empty. -/
def scrollMergedParams (st : SearchOpts) : List (String × String) :=
  let params := st.customParams.foldl (fun ps kv => setKV ps kv.1 kv.2) (scrollBaseParams st)
  if st.fetches = [] then params
  else setKV params "fetch_fields" (joinSep ";" st.fetches)

/-- One `(temp = s2.goneEmpty(v)) && (params[key] = temp)` step: store the
value under the key only when it is present and non-empty. -/
def goneEmptyStep (v : Option String) (key : String)
    (params : List (String × String)) : List (String × String) :=
  match v with
  | none => params
  | some s => if s = "" then params else setKV params key s

/-- Method `CloudSearch.prototype.callQuery` with `type = 'scroll'`: the merged
map, then `scroll` and `scroll_id` when truthy, and finally
`search_type = 'scan'`.  The search-only parameters `formula_name`,
`first_formula_name`, `summary`, `qp` and `disable` are guarded by
`type === 'search'` and never added.  Returns the parameter map handed to
`client.callRequest`. -/
def callQueryScroll (st : SearchOpts) : List (String × String) :=
  let params := goneEmptyStep st.scroll "scroll" (scrollMergedParams st)
  let params := goneEmptyStep st.scrollId "scroll_id" params
  setKV params "search_type" "scan"

/-- The wire names of the search-only parameters that `callQuery` emits
only for `type = 'search'`. -/
def searchOnlyKeys : List String :=
  ["formula_name", "first_formula_name", "summary", "qp", "disable"]

/-! ## Helper lemmas -/

theorem charListLe_cons_iff {x y : Char} {xs ys : List Char} :
    charListLe (x :: xs) (y :: ys) = true ↔
      x.toNat < y.toNat ∨ (x.toNat = y.toNat ∧ charListLe xs ys = true) := by
  simp only [charListLe]
  split_ifs with h h'
  · simp [h]
  · constructor
    · intro hc; exact absurd hc (by simp)
    · rintro (hc | ⟨hc, -⟩) <;> omega
  · constructor
    · intro hc; exact Or.inr ⟨by omega, hc⟩
    · rintro (hc | ⟨-, hc⟩)
      · omega
      · exact hc

theorem charListLe_trans :
    ∀ (a b c : List Char), charListLe a b = true → charListLe b c = true →
      charListLe a c = true
  | [], _, _, _, _ => by simp [charListLe]
  | _ :: _, [], _, h, _ => by simp [charListLe] at h
  | _ :: _, _ :: _, [], _, h => by simp [charListLe] at h
  | x :: xs, y :: ys, z :: zs, h1, h2 => by
    rcases charListLe_cons_iff.mp h1 with h | ⟨he, h1'⟩ <;>
      rcases charListLe_cons_iff.mp h2 with h' | ⟨he', h2'⟩ <;>
      apply charListLe_cons_iff.mpr
    · exact Or.inl (by omega)
    · exact Or.inl (by omega)
    · exact Or.inl (by omega)
    · exact Or.inr ⟨by omega, charListLe_trans xs ys zs h1' h2'⟩

theorem charListLe_total :
    ∀ (a b : List Char), charListLe a b = true ∨ charListLe b a = true
  | [], _ => Or.inl (by simp [charListLe])
  | _ :: _, [] => Or.inr (by simp [charListLe])
  | x :: xs, y :: ys => by
    rcases Nat.lt_trichotomy x.toNat y.toNat with h | h | h
    · exact Or.inl (charListLe_cons_iff.mpr (Or.inl h))
    · rcases charListLe_total xs ys with h' | h'
      · exact Or.inl (charListLe_cons_iff.mpr (Or.inr ⟨h, h'⟩))
      · exact Or.inr (charListLe_cons_iff.mpr (Or.inr ⟨h.symm, h'⟩))
    · exact Or.inr (charListLe_cons_iff.mpr (Or.inl h))

theorem strLe_trans {a b c : String} (h1 : strLe a b = true)
    (h2 : strLe b c = true) : strLe a c = true :=
  charListLe_trans a.data b.data c.data h1 h2

theorem strLe_of_not_strLe {a b : String} (h : ¬ strLe a b = true) :
    strLe b a = true := by
  rcases charListLe_total a.data b.data with h' | h'
  · exact absurd h' h
  · exact h'

theorem mem_insertStr {a x : String} :
    ∀ {l : List String}, a ∈ insertStr x l ↔ a = x ∨ a ∈ l
  | [] => by simp [insertStr]
  | y :: ys => by
    simp only [insertStr]
    split_ifs with h
    · simp
    · rw [List.mem_cons, mem_insertStr (l := ys), List.mem_cons]
      tauto

theorem mem_sortStrs {a : String} :
    ∀ {l : List String}, a ∈ sortStrs l ↔ a ∈ l
  | [] => by simp [sortStrs]
  | x :: xs => by
    rw [sortStrs, mem_insertStr, mem_sortStrs (l := xs), List.mem_cons]

theorem pairwise_insertStr {x : String} :
    ∀ {l : List String}, List.Pairwise (fun a b => strLe a b = true) l →
      List.Pairwise (fun a b => strLe a b = true) (insertStr x l)
  | [], _ => by simp [insertStr]
  | y :: ys, hp => by
    rw [insertStr]
    rcases List.pairwise_cons.mp hp with ⟨hy, hys⟩
    split_ifs with h
    · exact List.pairwise_cons.mpr
        ⟨fun z hz => by
          rcases List.mem_cons.mp hz with rfl | hz
          · exact h
          · exact strLe_trans h (hy z hz), hp⟩
    · exact List.pairwise_cons.mpr
        ⟨fun z hz => by
          rcases mem_insertStr.mp hz with rfl | hz
          · exact strLe_of_not_strLe h
          · exact hy z hz,
         pairwise_insertStr hys⟩

theorem pairwise_sortStrs :
    ∀ (l : List String),
      List.Pairwise (fun a b => strLe a b = true) (sortStrs l)
  | [] => by simp [sortStrs]
  | x :: xs => pairwise_insertStr (pairwise_sortStrs xs)

theorem getKV_setKV_self {α : Type} :
    ∀ (l : List (String × α)) (k : String) (v : α),
      getKV (setKV l k v) k = some v
  | [], k, v => by simp [setKV, getKV]
  | (k0, v0) :: rest, k, v => by
    by_cases h : k0 = k
    · simp [setKV, getKV, h]
    · simp [setKV, getKV, h, getKV_setKV_self rest k v]

theorem getKV_setKV_ne {α : Type} {k' k : String} (hne : k' ≠ k) :
    ∀ (l : List (String × α)) (v : α),
      getKV (setKV l k v) k' = getKV l k'
  | [], v => by
    simp [setKV, getKV, Ne.symm hne]
  | (k0, v0) :: rest, v => by
    by_cases h : k0 = k
    · subst h
      simp [setKV, getKV, Ne.symm hne]
    · simp only [setKV, if_neg h, getKV]
      by_cases h' : k0 = k'
      · simp [h']
      · simp [h', getKV_setKV_ne hne rest v]

theorem setKV_fresh {α : Type} {k : String} :
    ∀ {l : List (String × α)}, k ∉ l.map Prod.fst →
      ∀ (v : α), setKV l k v = l ++ [(k, v)]
  | [], _, v => by simp [setKV]
  | (k0, v0) :: rest, hk, v => by
    have h0 : k0 ≠ k := by
      intro h; exact hk (by simp [h])
    have hrest : k ∉ rest.map Prod.fst := fun h => hk (by simp [h])
    simp [setKV, h0, setKV_fresh hrest v]

theorem map_setKV_id {α : Type} {k : String} {v : α} :
    ∀ {l : List (String × α)}, k ∉ l.map Prod.fst →
      (l.map fun p => if p.1 = k then (p.1, v) else p) = l
  | [], _ => by simp
  | (k0, v0) :: rest, hk => by
    have h0 : k0 ≠ k := by
      intro h; exact hk (by simp [h])
    have hrest : k ∉ rest.map Prod.fst := fun h => hk (by simp [h])
    simp [h0, map_setKV_id hrest]

theorem setKV_overwrite {α : Type} {k : String} {v : α} :
    ∀ {l : List (String × α)}, (l.map Prod.fst).Nodup →
      k ∈ l.map Prod.fst →
      setKV l k v = l.map fun p => if p.1 = k then (p.1, v) else p
  | [], _, hk => by simp at hk
  | (k0, v0) :: rest, hnd, hk => by
    rw [List.map_cons, List.nodup_cons] at hnd
    obtain ⟨h0, hndr⟩ := hnd
    by_cases h : k0 = k
    · subst h
      simp [setKV, map_setKV_id h0]
    · have hkr : k ∈ rest.map Prod.fst := by
        rw [List.map_cons, List.mem_cons] at hk
        exact hk.resolve_left fun h' => h h'.symm
      simp [setKV, h, setKV_overwrite hndr hkr]

theorem getKV_eq_some_iff {k : String} {v : JSVal} :
    ∀ {l : Params}, (l.map Prod.fst).Nodup →
      (getKV l k = some v ↔ (k, v) ∈ l)
  | [], _ => by simp [getKV]
  | (k0, v0) :: rest, hnd => by
    rw [List.map_cons, List.nodup_cons] at hnd
    obtain ⟨h0, hndr⟩ := hnd
    by_cases h : k0 = k
    · subst h
      simp only [getKV, if_pos rfl, List.mem_cons]
      constructor
      · intro h'
        exact Or.inl (by rw [Option.some.inj h'])
      · rintro (h' | h')
        · obtain ⟨-, rfl⟩ := Prod.mk.inj h'.symm
          rfl
        · exact absurd (List.mem_map_of_mem Prod.fst h') h0
    · rw [getKV, if_neg h, getKV_eq_some_iff hndr, List.mem_cons]
      constructor
      · exact Or.inr
      · rintro (h' | h')
        · exact absurd (congrArg Prod.fst h').symm h
        · exact h'

theorem getKV_foldl_setKV {k : String} :
    ∀ (custom : List (String × String)) (ps : List (String × String)),
      k ∉ custom.map Prod.fst →
      getKV (custom.foldl (fun acc kv => setKV acc kv.1 kv.2) ps) k = getKV ps k
  | [], ps, _ => rfl
  | (k0, v0) :: rest, ps, hk => by
    have h0 : k ≠ k0 := by
      intro h; exact hk (by simp [h])
    have hrest : k ∉ rest.map Prod.fst := fun h => hk (by simp [h])
    rw [List.foldl_cons, getKV_foldl_setKV rest _ hrest, getKV_setKV_ne h0]

theorem string_ext {a b : String} (h : a.data = b.data) : a = b :=
  congrArg String.mk h

theorem strAppend_assoc (a b c : String) : a ++ b ++ c = a ++ (b ++ c) :=
  string_ext (by simp [String.data_append, List.append_assoc])

theorem strAppend_empty (a : String) : a ++ "" = a :=
  string_ext (by simp [String.data_append])

theorem strEmpty_append (a : String) : "" ++ a = a :=
  string_ext (by simp [String.data_append])

theorem pairwise_filterMap_keys (f : String → Option (String × JSVal))
    (hf : ∀ k p, f k = some p → p.1 = k) :
    ∀ {ks : List String}, List.Pairwise (fun a b => strLe a b = true) ks →
      List.Pairwise (fun a b => strLe a b = true) ((ks.filterMap f).map Prod.fst)
  | [], _ => by simp
  | k :: ks, hp => by
    obtain ⟨hk, hks⟩ := List.pairwise_cons.mp hp
    rw [List.filterMap_cons]
    cases hfk : f k with
    | none => exact pairwise_filterMap_keys f hf hks
    | some p =>
      rw [List.map_cons]
      refine List.pairwise_cons.mpr ⟨?_, pairwise_filterMap_keys f hf hks⟩
      intro q hq
      rw [List.mem_map] at hq
      obtain ⟨p', hp', rfl⟩ := hq
      rw [List.mem_filterMap] at hp'
      obtain ⟨k', hk', hfk'⟩ := hp'
      rw [hf k' p' hfk', hf k p hfk]
      exact hk k' hk'

/-! ## Claim theorems -/

/-- The concrete parameter map of the filtering example in the spec. -/
def exFilterMap : Params :=
  [("A", .str ""), ("B", .num 0), ("C", .str "x"), ("Signature", .str "old")]

/-- C1.  Pre-signature canonicalization: `_paramsFilter` produces a map
whose keys are in ascending lexicographic order, and — for maps with unique
keys, as every JS object has — it keeps exactly the entries whose key is
not `Signature` and whose value is truthy or the literal number 0; the
example map `A:'' , B:0, C:'x', Signature:'old'` canonicalizes to exactly
`B:0, C:'x'` with `B` before `C`. -/
theorem paramsFilter_canonicalizes :
    (∀ ps : Params,
      List.Pairwise (fun a b => strLe a b = true) ((_paramsFilter ps).map Prod.fst))
    ∧ (∀ ps : Params, (ps.map Prod.fst).Nodup → ∀ (k : String) (v : JSVal),
        ((k, v) ∈ _paramsFilter ps ↔
          (k, v) ∈ ps ∧ k ≠ "Signature" ∧ (jsTruthy v ∨ v = .num 0)))
    ∧ _paramsFilter exFilterMap = [("B", .num 0), ("C", .str "x")] := by
  have hf : ∀ (ps : Params) (k : String) (p : String × JSVal),
      ((getKV ps k).bind fun v =>
        if k ≠ "Signature" ∧ (jsTruthy v ∨ v = JSVal.num 0) then some (k, v) else none)
        = some p → p.1 = k := by
    intro ps k p hfk
    cases hgv : getKV ps k with
    | none => rw [hgv, Option.none_bind'] at hfk; cases hfk
    | some v =>
      rw [hgv, Option.some_bind'] at hfk
      by_cases hc : k ≠ "Signature" ∧ (jsTruthy v ∨ v = JSVal.num 0)
      · rw [if_pos hc] at hfk
        obtain rfl := Option.some.inj hfk
        rfl
      · rw [if_neg hc] at hfk; cases hfk
  refine ⟨?_, ?_, by decide⟩
  · intro ps
    exact pairwise_filterMap_keys _ (hf ps) (pairwise_sortStrs _)
  · intro ps hnd k v
    unfold _paramsFilter
    constructor
    · intro hm
      obtain ⟨a, ha, hfa⟩ := List.mem_filterMap.mp hm
      cases hgv : getKV ps a with
      | none => rw [hgv, Option.none_bind'] at hfa; cases hfa
      | some w =>
        rw [hgv, Option.some_bind'] at hfa
        by_cases hc : a ≠ "Signature" ∧ (jsTruthy w ∨ w = JSVal.num 0)
        · rw [if_pos hc] at hfa
          obtain ⟨rfl, rfl⟩ := Prod.mk.inj (Option.some.inj hfa)
          exact ⟨(getKV_eq_some_iff hnd).mp hgv, hc⟩
        · rw [if_neg hc] at hfa; cases hfa
    · rintro ⟨hm, hc⟩
      refine List.mem_filterMap.mpr ⟨k, ?_, ?_⟩
      · exact mem_sortStrs.mpr (List.mem_map_of_mem Prod.fst hm)
      · rw [(getKV_eq_some_iff hnd).mpr hm, Option.some_bind', if_pos hc]

/-- Witness for C1 at the spec's example map, discharging the
unique-keys hypothesis there. -/
theorem paramsFilter_canonicalizes_witness :
    ("B", JSVal.num 0) ∈ _paramsFilter exFilterMap ↔
      ("B", JSVal.num 0) ∈ exFilterMap ∧ "B" ≠ "Signature" ∧
        (jsTruthy (JSVal.num 0) ∨ JSVal.num 0 = .num 0) :=
  paramsFilter_canonicalizes.2.1 exFilterMap (by decide) "B" (JSVal.num 0)

/-- The signature computation as the spec words it: clone the params and
remove `items` when `sign_mode` equals 1, canonicalize, percent-encode the
canonical map into a query string, percent-encode that string again into
the base string `<METHOD uppercased>&%2F&<double-encoded query>`, and take
the HMAC-SHA1 hex digest keyed with `<secret>&`. -/
def signatureSpec (hmac : String → String → String) (params : Params)
    (opts : ClientOpts) : String :=
  let signingClone :=
    if getKV params "sign_mode" = some (.num 1) then delKV params "items" else params
  let canonical := _paramsFilter signingClone
  let canonicalQuery := percentEncodeParams canonical
  let baseString := opts.method.toUpper ++ "&%2F&" ++ _percentEncode canonicalQuery
  hmac (opts.secret ++ "&") baseString

/-- A concrete stand-in for the external HMAC-SHA1 hex digest, used only to
instantiate theorems that hold for every hash function. -/
def hmacStub (key msg : String) : String := key ++ "|" ++ msg

/-- A concrete parameter map whose `sign_mode` field is the number 1. -/
def exSignParams : Params :=
  [("sign_mode", .num 1), ("items", .str "x"), ("q", .str "a")]

/-- C2.  `_signAliyun` computes exactly the signature the spec describes,
for every parameter map, method and secret and every hash function; and
when `sign_mode` equals 1 the `items` field is removed from the signing
clone first. -/
theorem signAliyun_matches_spec :
    (∀ (hmac : String → String → String) (params : Params) (opts : ClientOpts),
      _signAliyun hmac params opts = signatureSpec hmac params opts)
    ∧ (∀ (hmac : String → String → String) (params : Params) (opts : ClientOpts),
        getKV params "sign_mode" = some (.num 1) →
        _signAliyun hmac params opts =
          hmac (opts.secret ++ "&")
            (opts.method.toUpper ++ "&%2F&"
              ++ _percentEncode (percentEncodeParams (_paramsFilter (delKV params "items"))))) := by
  refine ⟨fun hmac params opts => rfl, ?_⟩
  intro hmac params opts h
  unfold _signAliyun
  rw [if_pos h]

/-- Witness for C2: instantiated at a concrete hash function, a map with
`sign_mode = 1`, and the default endpoint options. -/
theorem signAliyun_matches_spec_witness :
    _signAliyun hmacStub exSignParams default_opts =
      hmacStub (default_opts.secret ++ "&")
        (default_opts.method.toUpper ++ "&%2F&"
          ++ _percentEncode (percentEncodeParams (_paramsFilter (delKV exSignParams "items")))) :=
  signAliyun_matches_spec.2 hmacStub exSignParams default_opts (by decide)

/-- C3 (failing inputs).  The claim says no `add` mutator ever throws, in
particular not on array arguments; but `addFetchFields` evaluates
`this._opts.indexOf(field)` (no such method on a plain object) and
`addIndex` on a non-empty array evaluates `self.indexes.indexOf(e)` with
`self.indexes` undefined, so both throw a `TypeError`. -/
theorem add_mutators_throw :
    addFetchFields search_default_opts (.s "title")
        = .error "TypeError: this._opts.indexOf is not a function"
    ∧ addIndex search_default_opts (.arr ["idx1"])
        = .error "TypeError: Cannot read property indexOf of undefined" :=
  ⟨rfl, rfl⟩

/-- Counterexample for C4: re-adding an already-present name appends it a
second time (no deduplication), and adding the empty string is not a no-op
— it appends the empty string to the index list. -/
theorem addIndex_no_dedup_counterexample :
    (addIndex search_default_opts (.s "a")).bind (fun st => addIndex st (.s "a"))
      = .ok { search_default_opts with indexes := ["a", "a"] }
    ∧ ["a", "a"] ≠ ["a"]
    ∧ addIndex search_default_opts (.s "")
      = .ok { search_default_opts with indexes := [""] } :=
  ⟨rfl, by decide, rfl⟩

/-- C4 (amended).  `addIndex` with a string argument appends it to the
index list unconditionally — no deduplication and no empty-input no-op;
an empty array leaves the state unchanged; a non-empty array and a missing
argument throw. -/
theorem addIndex_appends_unconditionally :
    (∀ (st : SearchOpts) (s : String),
      addIndex st (.s s) = .ok { st with indexes := st.indexes ++ [s] })
    ∧ (∀ st : SearchOpts, addIndex st (.arr []) = .ok st)
    ∧ (∀ (st : SearchOpts) (v : String) (l : List String),
        addIndex st (.arr (v :: l))
          = .error "TypeError: Cannot read property indexOf of undefined")
    ∧ (∀ st : SearchOpts,
        addIndex st .undef = .error "TypeError: Cannot read property map of undefined") :=
  ⟨fun _ _ => rfl, fun _ => rfl, fun _ _ _ => rfl, fun _ => rfl⟩

/-- C7.  `_percentEncode` is the standard percent-encoding followed by the
five provider replacements, and the spec's example string encodes to
exactly `a%2Ab%21c%27d%28e%29f`. -/
theorem percentEncode_fixups :
    (∀ s : String,
      _percentEncode s =
        replaceChar (replaceChar (replaceChar (replaceChar (replaceChar
          (encodeURIComponent s) '*' "%2A") '!' "%21") apos "%27") '(' "%28") ')' "%29")
    ∧ _percentEncode ("a*b!c" ++ String.mk [apos] ++ "d(e)f") = "a%2Ab%21c%27d%28e%29f" :=
  ⟨fun _ => rfl, by decide⟩

/-- The endpoint configuration of a freshly constructed transport client
over the default options. -/
def exClient : ClientOpts := CloudClient default_opts

/-- Counterexample for C8: `callRequest` executes
`opts.method = method || opts.method`, so calling it with method `POST`
permanently changes the stored default HTTP method of the client — the
endpoint configuration is not immutable after construction. -/
theorem callRequest_mutates_stored_method :
    (callRequest hmacStub exClient "/search" [] "POST" "nonce1" "ts1").1.method = "POST"
    ∧ exClient.method = "GET"
    ∧ (callRequest hmacStub exClient "/search" [] "POST" "nonce1" "ts1").1 ≠ exClient := by
  refine ⟨rfl, by decide, by decide⟩

/-- C8 (amended).  `callRequest` leaves every field of the stored endpoint
configuration unchanged except the default HTTP method, which is
overwritten by the supplied method whenever one is given. -/
theorem callRequest_preserves_config_except_method :
    ∀ (hmac : String → String → String) (client : ClientOpts) (path : String)
      (params : Params) (method nonce timestamp : String),
      (callRequest hmac client path params method nonce timestamp).1
        = { client with method := if method = "" then client.method else method } :=
  fun _ _ _ _ _ _ _ => rfl

/-- C9.  `addDisabledFunction` and `addQPName` call `Array.concat`, whose
result is discarded, so after any number of calls the stored list for a
function name (and the stored QP-name list) has exactly the elements it
had before: repeated calls never accumulate values. -/
theorem concat_mutators_never_accumulate :
    (∀ (st : SearchOpts) (name : String) (calls : List (String × JSArg)),
      (getKV ((calls.foldl (fun s c => addDisabledFunction s c.1 c.2) st).functions)
          name).getD []
        = (getKV st.functions name).getD [])
    ∧ (∀ (st : SearchOpts) (qs : List JSArg),
        (qs.foldl addQPName st).QPName = st.QPName) := by
  constructor
  · have hstep : ∀ (st : SearchOpts) (n : String) (dv : JSArg) (name : String),
        (getKV (addDisabledFunction st n dv).functions name).getD []
          = (getKV st.functions name).getD [] := by
      intro st n dv name
      unfold addDisabledFunction
      split_ifs with ht
      · by_cases h : name = n
        · subst h
          show (getKV (setKV st.functions name ((getKV st.functions name).getD []))
              name).getD [] = (getKV st.functions name).getD []
          rw [getKV_setKV_self]
          rfl
        · show (getKV (setKV st.functions n ((getKV st.functions n).getD []))
              name).getD [] = (getKV st.functions name).getD []
          rw [getKV_setKV_ne h]
      · rfl
    intro st name calls
    induction calls generalizing st with
    | nil => rfl
    | cons c cs ih => rw [List.foldl_cons, ih, hstep]
  · intro st qs
    induction qs generalizing st with
    | nil => rfl
    | cons q qs ih => rw [List.foldl_cons, ih]; rfl

/-- C10.  `setHits` stores `hits || 20`: the given count when it is truthy
and the default 20 when it is falsy (in particular for 0), so `getHits`
never returns 0 after a `setHits` call. -/
theorem setHits_zero_stores_default :
    ∀ (st : SearchOpts) (h : Int),
      getHits (setHits st h) = (if h = 0 then 20 else h)
      ∧ getHits (setHits st h) ≠ 0
      ∧ getHits (setHits st 0) = 20 := by
  intro st h
  refine ⟨rfl, ?_, rfl⟩
  show (if h = 0 then 20 else h) ≠ 0
  split_ifs with h0
  · decide
  · exact h0

theorem foldl_sortAcc :
    ∀ (l : List (String × String)) (a : String),
      l.foldl (fun acc kv => acc ++ kv.2 ++ kv.1 ++ ";") a
        = a ++ concatAll (l.map fun kv => kv.2 ++ kv.1 ++ ";")
  | [], a => by simp [concatAll, strAppend_empty]
  | kv :: l, a => by
    rw [List.foldl_cons, foldl_sortAcc l, List.map_cons]
    show (a ++ kv.2 ++ kv.1 ++ ";") ++ _ = a ++ ((kv.2 ++ kv.1 ++ ";") ++ _)
    simp only [strAppend_assoc]

theorem concatChunks_eq :
    ∀ (l : List (String × String)) (p : String × String),
      concatAll ((p :: l).map fun kv => kv.2 ++ kv.1 ++ ";")
        = joinSep ";" ((p :: l).map fun kv => kv.2 ++ kv.1) ++ ";"
  | [], p => by
    show (p.2 ++ p.1 ++ ";") ++ "" = (p.2 ++ p.1) ++ ";"
    simp only [strAppend_empty, strAppend_assoc]
  | q :: l, p => by
    show (p.2 ++ p.1 ++ ";") ++ concatAll ((q :: l).map fun kv => kv.2 ++ kv.1 ++ ";")
      = joinSep ";" ((p.2 ++ p.1) :: (q :: l).map fun kv => kv.2 ++ kv.1) ++ ";"
    rw [concatChunks_eq l q, List.map_cons, joinSep]
    simp only [strAppend_assoc]

theorem stripTrailing_concat (x : String) :
    stripTrailingChar (x ++ ";") ';' = x := by
  have hd : (x ++ (";" : String)).data = x.data ++ [';'] := by
    rw [String.data_append]
  unfold stripTrailingChar
  rw [hd, List.getLast?_concat, List.dropLast_concat]
  rfl

theorem getSortString_formula (st : SearchOpts) :
    getSortString st = joinSep ";" (st.sort.map fun p => p.2 ++ p.1) := by
  unfold getSortString getSort
  cases hsort : st.sort with
  | nil => rfl
  | cons p l =>
    rw [foldl_sortAcc, strEmpty_append, concatChunks_eq, stripTrailing_concat]

theorem addSorts_fresh :
    ∀ (l : List (String × String)) (st : SearchOpts),
      (∀ p ∈ l, p.1 ≠ "" ∧ p.2 ≠ "") → (l.map Prod.fst).Nodup →
      (∀ p ∈ l, p.1 ∉ st.sort.map Prod.fst) →
      (addSorts st l).sort = st.sort ++ l
  | [], st, _, _, _ => by simp [addSorts]
  | p :: l, st, htr, hnd, hfresh => by
    obtain ⟨hp1, hp2⟩ := htr p (List.mem_cons_self p l)
    rw [List.map_cons, List.nodup_cons] at hnd
    obtain ⟨hp0, hndl⟩ := hnd
    have hstep : addSort st p.1 p.2 = { st with sort := st.sort ++ [p] } := by
      unfold addSort
      rw [if_neg hp1, if_neg hp2,
        setKV_fresh (hfresh p (List.mem_cons_self p l)) p.2]
    show (addSorts (addSort st p.1 p.2) l).sort = st.sort ++ p :: l
    rw [hstep, addSorts_fresh l _ (fun q hq => htr q (List.mem_cons_of_mem p hq)) hndl]
    · show (st.sort ++ [p]) ++ l = st.sort ++ p :: l
      rw [List.append_assoc]
      rfl
    · intro q hq
      show q.1 ∉ (st.sort ++ [p]).map Prod.fst
      rw [List.map_append, List.mem_append]
      rintro (h | h)
      · exact hfresh q (List.mem_cons_of_mem p hq) h
      · rcases List.mem_singleton.mp (by simpa using h) with h'
        exact hp0 (h' ▸ List.mem_map_of_mem Prod.fst hq)

/-- C5.  For distinct truthy fields added in order, `getSortString` yields
`d1f1;d2f2;...` (insertion order, no trailing separator), and re-adding an
earlier field with a new direction replaces only that entry's direction
while keeping its position. -/
theorem sortString_insertion_order :
    ∀ (l : List (String × String)),
      (∀ p ∈ l, p.1 ≠ "" ∧ p.2 ≠ "") → (l.map Prod.fst).Nodup →
      (getSortString (addSorts search_default_opts l)
          = joinSep ";" (l.map fun p => p.2 ++ p.1))
      ∧ (∀ (f d : String), f ∈ l.map Prod.fst → d ≠ "" →
          getSortString (addSort (addSorts search_default_opts l) f d)
            = joinSep ";" (l.map fun p => (if p.1 = f then d else p.2) ++ p.1)) := by
  intro l htr hnd
  have hsort : (addSorts search_default_opts l).sort = l := by
    have h := addSorts_fresh l search_default_opts htr hnd
      (by intro p hp; simp [search_default_opts])
    simpa [search_default_opts] using h
  constructor
  · rw [getSortString_formula, hsort]
  · intro f d hf hd
    have hne_f : f ≠ "" := by
      obtain ⟨p, hp, rfl⟩ := List.mem_map.mp hf
      exact (htr p hp).1
    have hset : (addSort (addSorts search_default_opts l) f d).sort
        = l.map fun p => if p.1 = f then (p.1, d) else p := by
      unfold addSort
      rw [if_neg hne_f]
      show setKV (addSorts search_default_opts l).sort f (if d = "" then "-" else d)
        = l.map fun p => if p.1 = f then (p.1, d) else p
      rw [if_neg hd, hsort, setKV_overwrite hnd hf]
    rw [getSortString_formula, hset, List.map_map]
    refine congrArg (joinSep ";") (List.map_congr_left ?_)
    intro p hp
    by_cases h : p.1 = f <;> simp [h]

/-- Witness for C5 at a concrete two-field sort followed by a direction
overwrite of the first field. -/
theorem sortString_insertion_order_witness :
    getSortString (addSorts search_default_opts [("f1", "+"), ("f2", "-")])
        = joinSep ";" ([("f1", "+"), ("f2", "-")].map fun p => p.2 ++ p.1)
    ∧ getSortString
          (addSort (addSorts search_default_opts [("f1", "+"), ("f2", "-")]) "f1" "-")
        = joinSep ";" ([("f1", "+"), ("f2", "-")].map fun p =>
            (if p.1 = "f1" then "-" else p.2) ++ p.1) :=
  ⟨(sortString_insertion_order _ (by decide) (by decide)).1,
   (sortString_insertion_order _ (by decide) (by decide)).2 "f1" "-" (by decide)
     (by decide)⟩

/-- A builder state with scroll TTL and id set, search-only clauses
previously set through their setters, and one unrelated custom param. -/
def exScrollState : SearchOpts :=
  { search_default_opts with
      scroll := some "1m"
      scrollId := some "abc"
      formulaName := "f1"
      firstFormulaName := "f0"
      summary := [("title", [("summary_field", "title")])]
      sort := [("age", "-")]
      QPName := ["qp1"]
      functions := [("qp", ["spell_check"])]
      customParams := [("extra", "1")] }

/-- A builder state whose custom params reintroduce the wire name
`summary` in scroll mode. -/
def exScrollCustomClash : SearchOpts :=
  { search_default_opts with
      scroll := some "1m"
      scrollId := some "abc"
      customParams := [("summary", "x")] }

/-- C6 (amended).  For every builder state with scroll TTL `1m` and scroll
id `abc` set whose custom params avoid the search-only wire names, the
scroll call's parameter map contains `search_type=scan`, `scroll=1m` and
`scroll_id=abc`, contains none of `formula_name`, `first_formula_name`,
`summary`, `qp`, `disable` (even when those clauses were set on the same
builder), and the clause map serialized into the `query` value only ever
holds the `query`, `config`, `filter` and `kvpairs` clauses — never
`sort`, `aggregate` or `distinct`. -/
theorem callQueryScroll_scan_params :
    ∀ st : SearchOpts,
      st.scroll = some "1m" → st.scrollId = some "abc" →
      (∀ k ∈ searchOnlyKeys, k ∉ st.customParams.map Prod.fst) →
      getKV (callQueryScroll st) "search_type" = some "scan"
      ∧ getKV (callQueryScroll st) "scroll" = some "1m"
      ∧ getKV (callQueryScroll st) "scroll_id" = some "abc"
      ∧ (∀ k ∈ searchOnlyKeys, getKV (callQueryScroll st) k = none)
      ∧ (∀ k ∈ (scrollHaquery st).map Prod.fst,
          k ∈ ["query", "config", "filter", "kvpairs"]) := by
  intro st hscr hsid hcust
  have hform : callQueryScroll st
      = setKV (setKV (setKV (scrollMergedParams st) "scroll" "1m")
          "scroll_id" "abc") "search_type" "scan" := by
    unfold callQueryScroll
    rw [hscr, hsid]
    simp only [goneEmptyStep]
    rw [if_neg (by decide : ¬ ("1m" : String) = ""),
      if_neg (by decide : ¬ ("abc" : String) = "")]
  have hmerged : ∀ k : String, k ∉ st.customParams.map Prod.fst →
      k ≠ "fetch_fields" → k ≠ "query" → k ≠ "index_name" → k ≠ "Format" →
      getKV (scrollMergedParams st) k = none := by
    intro k h1 h2 h3 h4 h5
    unfold scrollMergedParams
    by_cases hf : st.fetches = []
    · rw [if_pos hf, getKV_foldl_setKV _ _ h1]
      simp [scrollBaseParams, getKV, Ne.symm h3, Ne.symm h4, Ne.symm h5]
    · rw [if_neg hf, getKV_setKV_ne h2, getKV_foldl_setKV _ _ h1]
      simp [scrollBaseParams, getKV, Ne.symm h3, Ne.symm h4, Ne.symm h5]
  refine ⟨?_, ?_, ?_, ?_, ?_⟩
  · rw [hform, getKV_setKV_self]
  · rw [hform, getKV_setKV_ne (by decide), getKV_setKV_ne (by decide),
      getKV_setKV_self]
  · rw [hform, getKV_setKV_ne (by decide), getKV_setKV_self]
  · intro k hk
    rw [hform]
    fin_cases hk <;>
      rw [getKV_setKV_ne (by decide), getKV_setKV_ne (by decide),
        getKV_setKV_ne (by decide)] <;>
      exact hmerged _ (hcust _ (by decide)) (by decide) (by decide) (by decide)
        (by decide)
  · intro k hk
    unfold scrollHaquery at hk
    by_cases h1 : st.filters = "" <;> by_cases h2 : st.kvpair = "" <;>
      simp only [h1, h2, if_pos, if_neg, List.map_append, List.map_cons,
        List.map_nil, List.mem_append, List.mem_cons, List.mem_singleton,
        List.not_mem_nil, or_false, false_or, if_true, if_false] at hk <;>
      simp only [List.mem_cons, List.mem_singleton, List.not_mem_nil,
        or_false] <;>
      tauto

/-- Witness for C6 at a state that previously set formula name, summary,
sort, QP names and disabled functions. -/
theorem callQueryScroll_scan_params_witness :
    getKV (callQueryScroll exScrollState) "search_type" = some "scan"
    ∧ getKV (callQueryScroll exScrollState) "scroll" = some "1m"
    ∧ getKV (callQueryScroll exScrollState) "scroll_id" = some "abc"
    ∧ (∀ k ∈ searchOnlyKeys, getKV (callQueryScroll exScrollState) k = none)
    ∧ (∀ k ∈ (scrollHaquery exScrollState).map Prod.fst,
        k ∈ ["query", "config", "filter", "kvpairs"]) :=
  callQueryScroll_scan_params exScrollState rfl rfl (by decide)

/-- Counterexample for C6 as stated: a custom param named `summary` set on
the same builder survives into the scroll-mode parameter map, so the map
is not free of the search-only keys for every builder state. -/
theorem callQueryScroll_custom_summary_counterexample :
    getKV (callQueryScroll exScrollCustomClash) "summary" = some "x"
    ∧ getKV (callQueryScroll exScrollCustomClash) "summary" ≠ none := by
  exact ⟨by decide, by decide⟩

end Opensearch
